import Mathlib

/-!
Verification development for `src/csromer/animations/animations.py`.

The python module renders a cube of 2D frames into a video animation.  We give
a shallow embedding of its classes and methods:

* scalar samples, color limits and the `cube_axis` values are modelled as
  rationals (`ℚ`), so that extrema and decimal formatting are computable;
* the world-coordinate arithmetic of `DataConfig` is modelled over the reals
  (`ℝ`), because the `"rad"` unit factor is `π / 180`;
* fallible operations (indexing `cube[0]`, numpy reductions over an empty
  axis) return `Option`, with `none` standing for the raised exception;
* the matplotlib driver `FuncAnimation(fig, animate, frames=len(cube), ...)`
  calls `animate` on `0, 1, ..., len(cube)-1` in order; we model this driver
  loop explicitly (`renderLoop` applied to `List.range`), and the observable
  effects of a completed render (extent, colormap, per-frame image data,
  titles and color limits, output path) as a `RenderResult` record.
-/

namespace CSRomer

/-- A 2D scalar frame: a list of rows of rationals (model of one 2D slice of
the numpy cube). -/
abbrev Frame := List (List ℚ)

/-- Row count of a frame, `data.shape[0]`. -/
def Frame.shape0 (f : Frame) : Nat := f.length

/-- Column count of a frame, `data.shape[1]` (numpy arrays are rectangular,
so we read the first row's length). -/
def Frame.shape1 (f : Frame) : Nat := (f.headD []).length

/-- The four world-coordinate header fields read by the animation code. -/
structure Header where
  cdelt1 : ℝ
  cdelt2 : ℝ
  crpix1 : ℝ
  crpix2 : ℝ

namespace ColormapManager

/-- The fixed list of colormap names stored by `ColormapManager.__init__`. -/
def cmaps : List String :=
  ["magma", "inferno", "inferno_r", "plasma", "viridis",
   "bone", "afmhot", "gist_heat", "CMRmap", "gnuplot",
   "Blues_r", "Purples_r", "ocean", "hot", "seismic_r", "ocean_r"]

/-- `ColormapManager.get_colormaps`: returns the stored list. -/
def get_colormaps : List String := cmaps

end ColormapManager

/-- `DataConfig._set_units_factor`: the unit label decides a scale factor;
`"arcmin"` gives `60.0`, `"arcsec"` gives `3600.0`, `"rad"` gives
`np.pi / 180.0`, and everything else falls through to `1.0`. -/
noncomputable def set_units_factor (units : String) : ℝ :=
  if units = "arcmin" then 60.0
  else if units = "arcsec" then 3600.0
  else if units = "rad" then Real.pi / 180.0
  else 1.0

/-- The state built by `DataConfig.__init__`. -/
structure DataConfig where
  data : Frame
  header : Header
  units : String
  u_factor : ℝ

/-- `DataConfig.__init__`: stores the arguments and computes `u_factor` from
the units label.  The python default for `units` is `"degrees"`; callers that
omit the argument pass `"degrees"` here explicitly. -/
noncomputable def DataConfig.make (data : Frame) (header : Header) (units : String) : DataConfig :=
  ⟨data, header, units, set_units_factor units⟩

/-- Model of `np.arange start stop step`: the values `start + i * step` for
`0 ≤ i < ⌈(stop - start) / step⌉` (numpy's length formula, empty when the
ceiling is nonpositive). -/
noncomputable def arange (start stop step : ℝ) : List ℝ :=
  (List.range (⌈(stop - start) / step⌉).toNat).map fun i => start + (i : ℝ) * step

/-- The value `[x, y, x1, y1]` returned by `DataConfig.config_axes`. -/
structure AxisSpec where
  x : List ℝ
  y : List ℝ
  x1 : ℝ
  y1 : ℝ

/-- `DataConfig.config_axes`, line for line: the shape-derived arrays are
computed and then shadowed by the `arange` regenerations before the return. -/
noncomputable def DataConfig.config_axes (c : DataConfig) : AxisSpec :=
  let x := Frame.shape0 c.data
  let y := Frame.shape1 c.data
  let dx := c.header.cdelt1 * c.u_factor
  let dy := c.header.cdelt2 * c.u_factor
  let x := (List.range x).map fun i => (i : ℝ) * dx
  let y := (List.range y).map fun i => (i : ℝ) * dy
  let x1 := (c.header.crpix1 - 1.0) * abs dx
  let y1 := (c.header.crpix2 - 1.0) * dy
  let x := arange x1 (-x1 - dx) (-dx)
  let y := arange (-y1) (y1 + dy) dy
  ⟨x, y, x1, y1⟩

/-- C3: for every header and unit factor, `config_axes` computes
`dx = cdelt1 * factor`, `dy = cdelt2 * factor`, `x1 = (crpix1 - 1) * |dx|`
(absolute value), `y1 = (crpix2 - 1) * dy` (no absolute value), and returns
`[x, y, x1, y1]` with `x = arange x1 (-x1 - dx) (-dx)` (reversed direction)
and `y = arange (-y1) (y1 + dy) dy` (forward direction). -/
theorem config_axes_formula (d : Frame) (h : Header) (s : String) (uf : ℝ) :
    DataConfig.config_axes ⟨d, h, s, uf⟩ =
      ⟨arange ((h.crpix1 - 1.0) * abs (h.cdelt1 * uf))
         (-((h.crpix1 - 1.0) * abs (h.cdelt1 * uf)) - h.cdelt1 * uf)
         (-(h.cdelt1 * uf)),
       arange (-((h.crpix2 - 1.0) * (h.cdelt2 * uf)))
         ((h.crpix2 - 1.0) * (h.cdelt2 * uf) + h.cdelt2 * uf)
         (h.cdelt2 * uf),
       (h.crpix1 - 1.0) * abs (h.cdelt1 * uf),
       (h.crpix2 - 1.0) * (h.cdelt2 * uf)⟩ := rfl

/-- C9: the result of `config_axes` is independent of the frame passed as
`data`: the shape-derived intermediate arrays are shadowed before the return,
so any two frames of any shapes and contents give identical output for the
same header, units label and unit factor. -/
theorem config_axes_data_independent (d₁ d₂ : Frame) (h : Header) (s : String) (uf : ℝ) :
    DataConfig.config_axes ⟨d₁, h, s, uf⟩ = DataConfig.config_axes ⟨d₂, h, s, uf⟩ := rfl

/-- C7: the units-to-factor conversion maps `"arcmin"` to `60.0`, `"arcsec"`
to `3600.0`, `"rad"` to `π / 180`, and every other label (including
`"degrees"` and any unrecognized string) to `1.0`, raising no error. -/
theorem units_factor_values :
    set_units_factor "arcmin" = 60.0 ∧
    set_units_factor "arcsec" = 3600.0 ∧
    set_units_factor "rad" = Real.pi / 180.0 ∧
    ∀ u : String, u ≠ "arcmin" → u ≠ "arcsec" → u ≠ "rad" →
      set_units_factor u = 1.0 := by
  refine ⟨?_, ?_, ?_, fun u h1 h2 h3 => ?_⟩
  · rw [set_units_factor, if_pos rfl]
  · rw [set_units_factor, if_neg (by decide), if_pos rfl]
  · rw [set_units_factor, if_neg (by decide), if_neg (by decide), if_pos rfl]
  · rw [set_units_factor, if_neg h1, if_neg h2, if_neg h3]

/-- Witness for C7 at the concrete label `"degrees"`: it is none of the three
recognized labels, and its factor is `1.0`. -/
theorem units_factor_values_witness :
    ("degrees" : String) ≠ "arcmin" ∧ set_units_factor "degrees" = 1.0 :=
  ⟨by decide, units_factor_values.2.2.2 "degrees" (by decide) (by decide) (by decide)⟩

/-- The `"degrees"` label is unrecognized by `_set_units_factor`, so its
factor is `1`. -/
theorem set_units_factor_degrees : set_units_factor "degrees" = 1 := by
  rw [set_units_factor, if_neg (by decide), if_neg (by decide), if_neg (by decide)]
  norm_num

/-- Round a rational to the nearest integer, ties to even: the rounding used
when python renders a float with the `:.4f` format specifier. -/
def roundHalfEven (x : ℚ) : ℤ :=
  if Int.fract x < 1 / 2 then ⌊x⌋
  else if 1 / 2 < Int.fract x then ⌊x⌋ + 1
  else if 2 ∣ ⌊x⌋ then ⌊x⌋ else ⌊x⌋ + 1

/-- Render a natural number below `10^4` as exactly four decimal digits. -/
def pad4 (k : Nat) : String :=
  String.mk [Nat.digitChar (k / 1000 % 10), Nat.digitChar (k / 100 % 10),
             Nat.digitChar (k / 10 % 10), Nat.digitChar (k % 10)]

/-- Model of the python format expression `f"{x:.4f}"`: the value rounded to
four decimal places, written with a sign, an integer part, a dot, and exactly
four fractional digits. -/
def fmt4 (x : ℚ) : String :=
  let n := roundHalfEven (x * 10000)
  let sign := if n < 0 then "-" else ""
  let m := n.natAbs
  sign ++ toString (m / 10000) ++ "." ++ pad4 (m % 10000)

/-- Pointwise combination of two equally-shaped frames; `frameOp2 max` is one
step of the reduction performed by `np.amax(cube, axis=0)`. -/
def frameOp2 (op : ℚ → ℚ → ℚ) (A B : Frame) : Frame :=
  List.zipWith (List.zipWith op) A B

/-- `np.amax(cube, axis=0)`: the elementwise maximum across all frames of the
cube; numpy raises on an empty reduction axis, modelled as `none`. -/
def np_amax_axis0 : List Frame → Option Frame
  | [] => none
  | f :: fs => some (fs.foldl (frameOp2 max) f)

/-- `np.amin(cube, axis=0)`: the elementwise minimum across all frames. -/
def np_amin_axis0 : List Frame → Option Frame
  | [] => none
  | f :: fs => some (fs.foldl (frameOp2 min) f)

/-- `np.amax` of one 2D array: the maximum over all of its entries; numpy
raises when the array is empty, modelled as `none`. -/
def np_amax_frame (f : Frame) : Option ℚ :=
  match f.flatten with
  | [] => none
  | a :: as => some (as.foldl max a)

/-- `np.amin` of one 2D array: the minimum over all of its entries. -/
def np_amin_frame (f : Frame) : Option ℚ :=
  match f.flatten with
  | [] => none
  | a :: as => some (as.foldl min a)

/-- The state held by an `AnimationCreator` after `__init__` has finished:
in particular `vmin` and `vmax` are definite values by then. -/
structure AnimationCreator where
  header : Header
  cube : List Frame
  cube_axis : List ℚ
  xlabel : String
  ylabel : String
  cblabel : String
  title : String
  cmap : String
  title_pad : ℚ
  vmin : ℚ
  vmax : ℚ

/-- `AnimationCreator.__init__`: stores the configuration; when either of the
optional bounds `vmin`, `vmax` is `None`, both are recomputed as
`np.amax(np.amax(cube, axis=0))` and `np.amin(np.amin(cube, axis=0))` (the
numpy reductions raise on an empty cube, modelled as `none`). -/
def AnimationCreator.make (header : Header) (cube : List Frame) (cube_axis : List ℚ)
    (xlabel ylabel cblabel title cmap : String) (title_pad : ℚ)
    (vmin vmax : Option ℚ) : Option AnimationCreator :=
  match vmin, vmax with
  | some a, some b =>
      some ⟨header, cube, cube_axis, xlabel, ylabel, cblabel, title, cmap, title_pad, a, b⟩
  | _, _ => do
      let mx ← np_amax_axis0 cube
      let vmaxv ← np_amax_frame mx
      let mn ← np_amin_axis0 cube
      let vminv ← np_amin_frame mn
      some ⟨header, cube, cube_axis, xlabel, ylabel, cblabel, title, cmap, title_pad, vminv, vmaxv⟩

/-- The observable per-frame state after one call of the nested `animate`
closure: the axes title, the displayed image data, and the color limits. -/
structure RenderState where
  title : String
  data : Frame
  clim : ℚ × ℚ
  deriving DecidableEq

/-- The nested `animate(i)` closure: reads `cube[i]` and `cube_axis[i]` (an
out-of-range index raises, modelled as `none`), sets the axes title to the
formatted Faraday-depth string, replaces the image data with `cube[i]` and
reapplies the stored color limits. -/
def animate (ac : AnimationCreator) (i : Nat) : Option RenderState := do
  let arr ← ac.cube[i]?
  let phi ← ac.cube_axis[i]?
  some ⟨"Faraday Depth Spectrum at " ++ fmt4 phi ++ " rad/m^2", arr, (ac.vmin, ac.vmax)⟩

/-- The matplotlib driver: `FuncAnimation(fig, animate, frames=len(cube))`
calls `animate` once per index of the supplied list, in order, aborting at the
first raised exception. -/
def renderLoop (ac : AnimationCreator) : List Nat → Option (List RenderState)
  | [] => some []
  | i :: is => do
      let st ← animate ac i
      let rest ← renderLoop ac is
      some (st :: rest)

/-- The observable effects of a completed `create_animation` call: the extent
and colormap of the initial `imshow`, the static labels, the sequence of
per-frame render states produced by the driver, and the output path handed to
`ani.save`. -/
structure RenderResult where
  extent : ℝ × ℝ × ℝ × ℝ
  init_data : Frame
  cmap : String
  xlabel : String
  ylabel : String
  cblabel : String
  frames : List RenderState
  output_video : String

/-- `AnimationCreator.create_animation`: reads `cube[0]` (this raises on an
empty cube, modelled as `none`), builds a `DataConfig` with the default units
`"degrees"`, performs the initial `imshow` with
`extent=[axes[2], -axes[2], -axes[3], axes[3]]` and the configured colormap,
then drives `animate` over the indices `0, ..., len(cube)-1` in order and
saves the result to `output_video`. -/
noncomputable def create_animation (ac : AnimationCreator) (output_video : String) :
    Option RenderResult := do
  let cv0 ← ac.cube[0]?
  let data_config := DataConfig.make cv0 ac.header "degrees"
  let axes := DataConfig.config_axes data_config
  let frames ← renderLoop ac (List.range ac.cube.length)
  some ⟨(axes.x1, -axes.x1, -axes.y1, axes.y1), cv0, ac.cmap,
        ac.xlabel, ac.ylabel, ac.cblabel, frames, output_video⟩

/-- Unfolding lemma for `animate` when both indexings succeed. -/
theorem animate_spec (ac : AnimationCreator) (i : Nat) (arr : Frame) (phi : ℚ)
    (h1 : ac.cube[i]? = some arr) (h2 : ac.cube_axis[i]? = some phi) :
    animate ac i =
      some ⟨"Faraday Depth Spectrum at " ++ fmt4 phi ++ " rad/m^2", arr,
            (ac.vmin, ac.vmax)⟩ := by
  simp [animate, h1, h2]

/-- The driver loop succeeds on any list of in-range indices and produces, in
order, one render state per index, each displaying the cube entry at its
index with the formatted title and the stored color limits. -/
theorem renderLoop_spec (ac : AnimationCreator)
    (hlen : ac.cube.length ≤ ac.cube_axis.length) :
    ∀ is : List Nat, (∀ i ∈ is, i < ac.cube.length) →
      ∃ l : List RenderState, renderLoop ac is = some l ∧ l.length = is.length ∧
        ∀ (k i : Nat), is[k]? = some i →
          ∃ st : RenderState, l[k]? = some st ∧ ac.cube[i]? = some st.data ∧
            (∃ phi, ac.cube_axis[i]? = some phi ∧
              st.title = "Faraday Depth Spectrum at " ++ fmt4 phi ++ " rad/m^2") ∧
            st.clim = (ac.vmin, ac.vmax) := by
  intro is
  induction is with
  | nil =>
      intro _
      exact ⟨[], rfl, rfl, fun k i hk => by simp at hk⟩
  | cons i is ih =>
      intro hmem
      have hi : i < ac.cube.length := hmem i (by simp)
      have hia : i < ac.cube_axis.length := lt_of_lt_of_le hi hlen
      obtain ⟨arr, harr⟩ : ∃ a, ac.cube[i]? = some a := ⟨_, List.getElem?_eq_getElem hi⟩
      obtain ⟨phi, hphi⟩ : ∃ p, ac.cube_axis[i]? = some p := ⟨_, List.getElem?_eq_getElem hia⟩
      obtain ⟨l, hl, hll, hspec⟩ := ih fun j hj => hmem j (by simp [hj])
      refine ⟨⟨"Faraday Depth Spectrum at " ++ fmt4 phi ++ " rad/m^2", arr,
              (ac.vmin, ac.vmax)⟩ :: l, ?_, by simp [hll], ?_⟩
      · simp [renderLoop, animate_spec ac i arr phi harr hphi, hl]
      · intro k j hk
        cases k with
        | zero =>
            simp only [List.getElem?_cons_zero, Option.some.injEq] at hk
            subst hk
            refine ⟨⟨"Faraday Depth Spectrum at " ++ fmt4 phi ++ " rad/m^2", arr,
                    (ac.vmin, ac.vmax)⟩, ?_, harr, ⟨phi, hphi, rfl⟩, rfl⟩
            simp
        | succ k =>
            simp only [List.getElem?_cons_succ] at hk
            obtain ⟨st, hst, hd, ht, hc⟩ := hspec k j hk
            exact ⟨st, by simpa using hst, hd, ht, hc⟩

/-- Unfolding lemma for `create_animation` when `cube[0]` and the driver loop
both succeed: the render happens with the configured colormap and labels, the
computed extent `[x1, -x1, -y1, y1]` for the default units `"degrees"`, and
the given output path. -/
theorem create_animation_spec (ac : AnimationCreator) (out : String)
    (cv0 : Frame) (h0 : ac.cube[0]? = some cv0)
    (l : List RenderState) (hl : renderLoop ac (List.range ac.cube.length) = some l) :
    create_animation ac out =
      some ⟨((ac.header.crpix1 - 1.0) * abs (ac.header.cdelt1 * set_units_factor "degrees"),
             -((ac.header.crpix1 - 1.0) * abs (ac.header.cdelt1 * set_units_factor "degrees")),
             -((ac.header.crpix2 - 1.0) * (ac.header.cdelt2 * set_units_factor "degrees")),
             (ac.header.crpix2 - 1.0) * (ac.header.cdelt2 * set_units_factor "degrees")),
            cv0, ac.cmap, ac.xlabel, ac.ylabel, ac.cblabel, l, out⟩ := by
  simp [create_animation, h0, hl, DataConfig.make, DataConfig.config_axes]

/-- A creator state with an empty cube and both color bounds supplied (so
that `__init__` succeeds without touching the cube). -/
def acEmpty : AnimationCreator :=
  ⟨⟨0.5, 0.5, 50, 50⟩, [], [], "", "", "", "", "Spectral", 0, 0, 1⟩

/-- C6 counterexample: on the empty cube, `create_animation` does not hand an
empty frame sequence to the encoder — it fails at the initial `cube[0]`
access (`none` models the raised index error), so no `RenderResult` with zero
frames is ever produced and the encoder is never reached. -/
theorem empty_cube_counterexample :
    create_animation acEmpty "dynamic_images.mp4" = none := rfl

/-- C6 amended: the empty cube is indeed not validated and no internal
configuration error is raised by design, but the pipeline does not reach the
encoder either: the initial `cube[0]` access fails with an uncaught index
error before any frame is produced. -/
theorem empty_cube_amended (ac : AnimationCreator) (out : String)
    (h : ac.cube = []) : create_animation ac out = none := by
  simp [create_animation, h]

/-- Witness for the amended C6 at the concrete empty-cube creator. -/
theorem empty_cube_amended_witness :
    acEmpty.cube = [] ∧ create_animation acEmpty "out.mp4" = none :=
  ⟨rfl, empty_cube_amended acEmpty "out.mp4" rfl⟩

/-- `pad4` always renders exactly four characters. -/
theorem pad4_length (k : Nat) : (pad4 k).length = 4 := rfl

/-- `fmt4` always produces a dot followed by exactly four fractional
digits. -/
theorem fmt4_decimals (x : ℚ) :
    ∃ pre frac, fmt4 x = pre ++ "." ++ frac ∧ frac.length = 4 := by
  refine ⟨(if roundHalfEven (x * 10000) < 0 then "-" else "") ++
            toString ((roundHalfEven (x * 10000)).natAbs / 10000),
          pad4 ((roundHalfEven (x * 10000)).natAbs % 10000), ?_, pad4_length _⟩
  rw [fmt4]

/-- The rounding used by `fmt4` is within half a unit of its argument. -/
theorem roundHalfEven_abs_le (x : ℚ) : |x - (roundHalfEven x : ℚ)| ≤ 1 / 2 := by
  have h0 : (0 : ℚ) ≤ Int.fract x := Int.fract_nonneg x
  have h1 : Int.fract x < 1 := Int.fract_lt_one x
  have hfr : x - (⌊x⌋ : ℚ) = Int.fract x := Int.self_sub_floor x
  rw [roundHalfEven]
  split_ifs with hlt hgt hev
  · rw [abs_of_nonneg (by linarith)]
    linarith
  · push_cast
    rw [abs_of_nonpos (by linarith)]
    linarith
  · rw [abs_of_nonneg (by linarith)]
    linarith
  · push_cast
    rw [abs_of_nonpos (by linarith)]
    linarith

/-- C5: whenever frame index `i` is in range of the cube and the axis list,
the per-frame update sets the title to the fixed prefix, the axis value
`cube_axis[i]` rendered to exactly four decimal places (a dot with exactly
four digits after it, the rounded value within half a unit of
`cube_axis[i] * 10^4`), the fixed physical-unit suffix " rad/m^2", and
reapplies the stored `(vmin, vmax)` color limits unchanged. -/
theorem frame_title_and_clim (ac : AnimationCreator) (i : Nat) (arr : Frame) (phi : ℚ)
    (h1 : ac.cube[i]? = some arr) (h2 : ac.cube_axis[i]? = some phi) :
    ∃ st : RenderState, animate ac i = some st ∧
      st.title = "Faraday Depth Spectrum at " ++ fmt4 phi ++ " rad/m^2" ∧
      (∃ pre frac, fmt4 phi = pre ++ "." ++ frac ∧ frac.length = 4) ∧
      |phi * 10000 - (roundHalfEven (phi * 10000) : ℚ)| ≤ 1 / 2 ∧
      st.clim = (ac.vmin, ac.vmax) :=
  ⟨_, animate_spec ac i arr phi h1 h2, rfl, fmt4_decimals phi,
   roundHalfEven_abs_le (phi * 10000), rfl⟩

/-- A small concrete creator used by the witnesses: a two-frame cube of 1×1
frames with axis values `0` and `1/2`, both color bounds supplied. -/
def ac4 : AnimationCreator :=
  ⟨⟨1, 1, 1, 1⟩, [[[1]], [[2]]], [0, 3], "", "", "", "", "plasma", 0, 0, 1⟩

/-- Witness for C5 at frame index `1` of the concrete creator. -/
theorem frame_title_and_clim_witness :
    ac4.cube[1]? = some [[2]] ∧ ac4.cube_axis[1]? = some 3 ∧
    ∃ st : RenderState, animate ac4 1 = some st ∧
      st.title = "Faraday Depth Spectrum at " ++ fmt4 3 ++ " rad/m^2" ∧
      (∃ pre frac, fmt4 3 = pre ++ "." ++ frac ∧ frac.length = 4) ∧
      |(3 : ℚ) * 10000 - (roundHalfEven ((3 : ℚ) * 10000) : ℚ)| ≤ 1 / 2 ∧
      st.clim = (ac4.vmin, ac4.vmax) :=
  ⟨by decide, by decide, frame_title_and_clim ac4 1 [[2]] 3 (by decide) (by decide)⟩

/-- C4: for every non-empty cube (under the data-model invariant that
`cube_axis` is at least as long as the cube), the driver renders exactly
`len cube` frames, visiting the frame indices `0, 1, ..., len cube - 1`
strictly in order with no skipping and no reordering, and the `i`-th rendered
frame displays exactly `cube[i]`. -/
theorem frames_rendered_in_order (ac : AnimationCreator)
    (hne : ac.cube ≠ [])
    (hlen : ac.cube.length ≤ ac.cube_axis.length) :
    ∃ l : List RenderState, renderLoop ac (List.range ac.cube.length) = some l ∧
      l.length = ac.cube.length ∧
      ∀ i : Nat, i < ac.cube.length →
        ∃ st : RenderState, l[i]? = some st ∧ ac.cube[i]? = some st.data := by
  obtain ⟨l, hl, hll, hspec⟩ :=
    renderLoop_spec ac hlen (List.range ac.cube.length) fun i hi => List.mem_range.mp hi
  refine ⟨l, hl, by simpa using hll, fun i hi => ?_⟩
  obtain ⟨st, hst, hd, -, -⟩ := hspec i i (by simp [List.getElem?_eq_getElem, hi])
  exact ⟨st, hst, hd⟩

/-- Witness for C4 at the concrete two-frame creator. -/
theorem frames_rendered_in_order_witness :
    ac4.cube ≠ [] ∧ ac4.cube.length ≤ ac4.cube_axis.length ∧
    ∃ l : List RenderState, renderLoop ac4 (List.range ac4.cube.length) = some l ∧
      l.length = ac4.cube.length ∧
      ∀ i : Nat, i < ac4.cube.length →
        ∃ st : RenderState, l[i]? = some st ∧ ac4.cube[i]? = some st.data :=
  ⟨by decide, by decide, frames_rendered_in_order ac4 (by decide) (by decide)⟩

/-- The demonstration header from the bottom of the module:
`{cdelt1: 0.5, cdelt2: 0.5, crpix1: 50, crpix2: 50}`. -/
def header50 : Header := ⟨0.5, 0.5, 50, 50⟩

/-- A 50×50 zero frame. -/
def frame50 : Frame := List.replicate 50 (List.replicate 50 0)

/-- A creator over a single 50×50 frame with the demonstration header and
both color bounds supplied. -/
def ac50 : AnimationCreator :=
  ⟨header50, [frame50], [0], "X-axis", "Y-axis", "Color Bar",
   "Sample Animation", "plasma", 0, 0, 1⟩

/-- C1 counterexample: for the scenario header and a 50×50 frame, the extent
actually passed to the initial render call is `[x1, -x1, -y1, y1]`, i.e.
`[24.5, -24.5, -24.5, 24.5]` — not the claimed ordering `[-x1, x1, -y1, y1]`
with value `[-24.5, 24.5, -24.5, 24.5]`. -/
theorem extent_ordering_counterexample :
    (create_animation ac50 "dynamic_images.mp4").map RenderResult.extent ≠
      some (-24.5, 24.5, -24.5, 24.5) := by
  obtain ⟨l, hl, -, -⟩ := renderLoop_spec ac50 (by simp [ac50])
    (List.range ac50.cube.length) fun i hi => List.mem_range.mp hi
  rw [create_animation_spec ac50 "dynamic_images.mp4" frame50 rfl l hl]
  simp only [Option.map_some, Option.some.injEq, Prod.mk.injEq, not_and,
    set_units_factor_degrees, ac50, header50]
  intro h
  rw [abs_of_nonneg (by norm_num)] at h
  norm_num at h

/-- C1 amended: for header `{cdelt1: 0.5, cdelt2: 0.5, crpix1: 50,
crpix2: 50}` and a 50×50 frame, `config_axes` yields `dx = dy = 0.5` and
`x1 = y1 = 24.5`, and the extent tuple passed to the initial render call
follows the ordering convention `[x1, -x1, -y1, y1]`, i.e. equals
`[24.5, -24.5, -24.5, 24.5]`. -/
theorem extent_scenario_amended :
    header50.cdelt1 * set_units_factor "degrees" = 0.5 ∧
    header50.cdelt2 * set_units_factor "degrees" = 0.5 ∧
    (DataConfig.config_axes (DataConfig.make frame50 header50 "degrees")).x1 = 24.5 ∧
    (DataConfig.config_axes (DataConfig.make frame50 header50 "degrees")).y1 = 24.5 ∧
    (create_animation ac50 "dynamic_images.mp4").map RenderResult.extent =
      some (24.5, -24.5, -24.5, 24.5) := by
  have habs : |(0.5 : ℝ) * 1| = 0.5 * 1 := abs_of_nonneg (by norm_num)
  refine ⟨?_, ?_, ?_, ?_, ?_⟩
  · simp [header50, set_units_factor_degrees]
  · simp [header50, set_units_factor_degrees]
  · simp only [DataConfig.config_axes, DataConfig.make, header50,
      set_units_factor_degrees]
    rw [habs]
    norm_num
  · simp only [DataConfig.config_axes, DataConfig.make, header50,
      set_units_factor_degrees]
    norm_num
  · obtain ⟨l, hl, -, -⟩ := renderLoop_spec ac50 (by simp [ac50])
      (List.range ac50.cube.length) fun i hi => List.mem_range.mp hi
    rw [create_animation_spec ac50 "dynamic_images.mp4" frame50 rfl l hl]
    simp only [Option.map_some, Option.some.injEq, Prod.mk.injEq, ac50,
      header50, set_units_factor_degrees]
    rw [habs]
    norm_num

/-- A creator whose colormap is the constructor's python default
`"Spectral"`, which is not in the `ColormapManager` list. -/
def acSpectral : AnimationCreator :=
  ⟨header50, [[[0]]], [0], "", "", "", "", "Spectral", 0, 0, 1⟩

/-- C8 counterexample: `"Spectral"` (the constructor's own default) is
outside the `ColormapManager` allow-list, yet the render is performed with
it — no validation of the colormap name happens anywhere on the path. -/
theorem cmap_unvalidated_counterexample :
    "Spectral" ∉ ColormapManager.get_colormaps ∧
    (create_animation acSpectral "dynamic_images.mp4").map RenderResult.cmap =
      some "Spectral" := by
  refine ⟨by decide, ?_⟩
  obtain ⟨l, hl, -, -⟩ := renderLoop_spec acSpectral (by simp [acSpectral])
    (List.range acSpectral.cube.length) fun i hi => List.mem_range.mp hi
  rw [create_animation_spec acSpectral "dynamic_images.mp4" [[0]] rfl l hl]
  rfl

/-- C8 amended: the colormap name is NOT validated against the fixed
allow-list held by `ColormapManager`: the list is merely stored, and
`create_animation` performs the render with whatever name was configured,
even one outside the allow-list. -/
theorem cmap_unvalidated_amended (ac : AnimationCreator) (out : String)
    (hcm : ac.cmap ∉ ColormapManager.get_colormaps)
    (cv0 : Frame) (h0 : ac.cube[0]? = some cv0)
    (hlen : ac.cube.length ≤ ac.cube_axis.length) :
    ∃ res : RenderResult, create_animation ac out = some res ∧
      res.cmap = ac.cmap := by
  obtain ⟨l, hl, -, -⟩ := renderLoop_spec ac hlen
    (List.range ac.cube.length) fun i hi => List.mem_range.mp hi
  exact ⟨_, create_animation_spec ac out cv0 h0 l hl, rfl⟩

/-- Witness for the amended C8 at the concrete `"Spectral"` creator. -/
theorem cmap_unvalidated_amended_witness :
    acSpectral.cmap ∉ ColormapManager.get_colormaps ∧
    ∃ res : RenderResult, create_animation acSpectral "out.mp4" = some res ∧
      res.cmap = acSpectral.cmap :=
  ⟨by decide, cmap_unvalidated_amended acSpectral "out.mp4" (by decide) [[0]]
    (by decide) (by decide)⟩

/-- C10: `create_animation` constructs its `DataConfig` without passing a
units argument, so the default `"degrees"` applies and the unit factor is
exactly `1` — `AnimationCreator` exposes no units parameter, and the header's
`cdelt` values enter the extent computation unscaled. -/
theorem default_units_degrees (ac : AnimationCreator) (out : String)
    (cv0 : Frame) (h0 : ac.cube[0]? = some cv0)
    (hlen : ac.cube.length ≤ ac.cube_axis.length) :
    set_units_factor "degrees" = 1 ∧
    ∃ res : RenderResult, create_animation ac out = some res ∧
      res.extent = ((ac.header.crpix1 - 1.0) * abs ac.header.cdelt1,
                    -((ac.header.crpix1 - 1.0) * abs ac.header.cdelt1),
                    -((ac.header.crpix2 - 1.0) * ac.header.cdelt2),
                    (ac.header.crpix2 - 1.0) * ac.header.cdelt2) := by
  obtain ⟨l, hl, -, -⟩ := renderLoop_spec ac hlen
    (List.range ac.cube.length) fun i hi => List.mem_range.mp hi
  refine ⟨set_units_factor_degrees, ⟨_, create_animation_spec ac out cv0 h0 l hl, ?_⟩⟩
  simp [set_units_factor_degrees]

/-- Witness for C10 at the concrete two-frame creator. -/
theorem default_units_degrees_witness :
    ac4.cube[0]? = some [[1]] ∧ ac4.cube.length ≤ ac4.cube_axis.length ∧
    (set_units_factor "degrees" = 1 ∧
    ∃ res : RenderResult, create_animation ac4 "out.mp4" = some res ∧
      res.extent = ((ac4.header.crpix1 - 1.0) * abs ac4.header.cdelt1,
                    -((ac4.header.crpix1 - 1.0) * abs ac4.header.cdelt1),
                    -((ac4.header.crpix2 - 1.0) * ac4.header.cdelt2),
                    (ac4.header.crpix2 - 1.0) * ac4.header.cdelt2)) :=
  ⟨by decide, by decide,
   default_units_degrees ac4 "out.mp4" [[1]] (by decide) (by decide)⟩

/-- All scalar entries of all frames of a cube, flattened. -/
def cube_elems (cube : List Frame) : List ℚ := (cube.map List.flatten).flatten

/-- Membership in `cube_elems` is membership in some frame's entries. -/
theorem mem_cube_elems (cube : List Frame) (v : ℚ) :
    v ∈ cube_elems cube ↔ ∃ g ∈ cube, v ∈ g.flatten := by
  simp [cube_elems]

/-- Two frames with the same number of rows and pointwise equal row
lengths (all frames of a numpy 3D cube are of this kind). -/
def sameShape (A B : Frame) : Prop :=
  List.Forall₂ (fun ra rb => ra.length = rb.length) A B

theorem sameShape_refl (A : Frame) : sameShape A A := by
  induction A with
  | nil => exact List.Forall₂.nil
  | cons ra A ih => exact List.Forall₂.cons rfl ih

theorem sameShape_symm {A B : Frame} (h : sameShape A B) : sameShape B A := by
  induction h with
  | nil => exact List.Forall₂.nil
  | cons h₁ _ ih => exact List.Forall₂.cons h₁.symm ih

theorem sameShape_trans : ∀ {A B C : Frame},
    sameShape A B → sameShape B C → sameShape A C := by
  intro A B C hab
  induction hab generalizing C with
  | nil =>
      intro hbc
      cases hbc
      exact List.Forall₂.nil
  | cons h₁ h₂ ih =>
      intro hbc
      cases hbc with
      | cons g₁ g₂ => exact List.Forall₂.cons (h₁.trans g₁) (ih g₂)

/-- Pointwise combination preserves the shape of its (equally-shaped)
arguments. -/
theorem sameShape_frameOp2 (op : ℚ → ℚ → ℚ) : ∀ {A B : Frame},
    sameShape A B → sameShape A (frameOp2 op A B) := by
  intro A B h
  induction h with
  | nil => exact List.Forall₂.nil
  | @cons ra rb A B h₁ h₂ ih =>
      exact List.Forall₂.cons (by rw [List.length_zipWith, ← h₁, min_self]) ih

/-- Equally-shaped frames have equally many entries. -/
theorem sameShape_flatten_length {A B : Frame} (h : sameShape A B) :
    A.flatten.length = B.flatten.length := by
  induction h with
  | nil => rfl
  | cons h₁ _ ih => simp [h₁, ih]

/-- Every element of a `zipWith` image is the image of an element of each
input list. -/
theorem zipWith_mem {α β γ : Type} (f : α → β → γ) :
    ∀ (p : List α) (q : List β) (c : γ), c ∈ List.zipWith f p q →
      ∃ a ∈ p, ∃ b ∈ q, c = f a b := by
  intro p
  induction p with
  | nil => intro q c h; simp at h
  | cons a p ih =>
      intro q c h
      cases q with
      | nil => simp at h
      | cons b q =>
          rw [List.zipWith_cons_cons] at h
          rcases List.mem_cons.mp h with h | h
          · exact ⟨a, by simp, b, by simp, h⟩
          · obtain ⟨a₁, ha, b₁, hb, he⟩ := ih q c h
            exact ⟨a₁, by simp [ha], b₁, by simp [hb], he⟩

/-- When `op` always picks one of its arguments, every entry of the
pointwise combination of two frames is an entry of one of them. -/
theorem mem_frameOp2 (op : ℚ → ℚ → ℚ) (hop : ∀ a b, op a b = a ∨ op a b = b)
    (A B : Frame) (v : ℚ) (hv : v ∈ (frameOp2 op A B).flatten) :
    v ∈ A.flatten ∨ v ∈ B.flatten := by
  rw [frameOp2, List.mem_flatten] at hv
  obtain ⟨row, hrow, hvrow⟩ := hv
  obtain ⟨ra, hra, rb, hrb, he⟩ := zipWith_mem _ A B row hrow
  subst he
  obtain ⟨a, ha, b, hb, he⟩ := zipWith_mem op ra rb v hvrow
  rcases hop a b with h | h
  · exact Or.inl (List.mem_flatten.mpr ⟨ra, hra, by rw [he, h]; exact ha⟩)
  · exact Or.inr (List.mem_flatten.mpr ⟨rb, hrb, by rw [he, h]; exact hb⟩)

/-- A bound (in the sense of the relation `R`) on the `zipWith` of two
equally-long lists is a bound on both lists, provided `R` bounds both
arguments of `op` by its result and is transitive. -/
theorem bound_zipWith (op : ℚ → ℚ → ℚ) (R : ℚ → ℚ → Prop)
    (hR : ∀ a b, R a (op a b) ∧ R b (op a b))
    (htrans : ∀ a b c, R a b → R b c → R a c) (z : ℚ) :
    ∀ (p q : List ℚ), p.length = q.length →
      (∀ v ∈ List.zipWith op p q, R v z) →
      (∀ v ∈ p, R v z) ∧ (∀ v ∈ q, R v z) := by
  intro p
  induction p with
  | nil =>
      intro q hq _
      have hq0 : q = [] := by simpa using hq.symm
      subst hq0
      exact ⟨by simp, by simp⟩
  | cons a p ih =>
      intro q hq hub
      cases q with
      | nil => simp at hq
      | cons b q =>
          rw [List.zipWith_cons_cons] at hub
          have h0 : R (op a b) z := hub _ (by simp)
          have hrest : ∀ v ∈ List.zipWith op p q, R v z := fun v hv =>
            hub v (by simp [hv])
          obtain ⟨h1, h2⟩ := ih q (by simpa using hq) hrest
          constructor
          · intro v hv
            rcases List.mem_cons.mp hv with rfl | hv
            · exact htrans v (op v b) z (hR v b).1 h0
            · exact h1 v hv
          · intro v hv
            rcases List.mem_cons.mp hv with rfl | hv
            · exact htrans v (op a v) z (hR a v).2 h0
            · exact h2 v hv

/-- Frame-level version of `bound_zipWith`. -/
theorem bound_frameOp2 (op : ℚ → ℚ → ℚ) (R : ℚ → ℚ → Prop)
    (hR : ∀ a b, R a (op a b) ∧ R b (op a b))
    (htrans : ∀ a b c, R a b → R b c → R a c) (z : ℚ) :
    ∀ (A B : Frame), sameShape A B →
      (∀ v ∈ (frameOp2 op A B).flatten, R v z) →
      (∀ v ∈ A.flatten, R v z) ∧ (∀ v ∈ B.flatten, R v z) := by
  intro A B hs
  induction hs with
  | nil => intro _; exact ⟨by simp, by simp⟩
  | @cons ra rb A B h₁ h₂ ih =>
      intro hub
      have hrow : ∀ v ∈ List.zipWith op ra rb, R v z := fun v hv =>
        hub v (by simp [frameOp2]; exact Or.inl hv)
      have hrest : ∀ v ∈ (frameOp2 op A B).flatten, R v z := fun v hv =>
        hub v (by simp [frameOp2]; right; simpa [frameOp2] using hv)
      obtain ⟨hA, hB⟩ := ih hrest
      obtain ⟨hra, hrb⟩ := bound_zipWith op R hR htrans z ra rb h₁ hrow
      constructor
      · intro v hv
        rw [List.flatten_cons, List.mem_append] at hv
        rcases hv with hv | hv
        · exact hra v hv
        · exact hA v hv
      · intro v hv
        rw [List.flatten_cons, List.mem_append] at hv
        rcases hv with hv | hv
        · exact hrb v hv
        · exact hB v hv

/-- When `op` picks one of its arguments, the result of folding a list is
the start value or a member of the list. -/
theorem foldl_op_mem (op : ℚ → ℚ → ℚ) (hop : ∀ a b, op a b = a ∨ op a b = b) :
    ∀ (l : List ℚ) (a : ℚ), l.foldl op a = a ∨ l.foldl op a ∈ l := by
  intro l
  induction l with
  | nil => intro a; exact Or.inl rfl
  | cons b l ih =>
      intro a
      rw [List.foldl_cons]
      rcases ih (op a b) with h | h
      · rcases hop a b with h2 | h2
        · exact Or.inl (h.trans h2)
        · exact Or.inr (by rw [h, h2]; exact List.mem_cons_self b l)
      · exact Or.inr (List.mem_cons_of_mem b h)

/-- The fold of a list bounds (via `R`) the start value and every member. -/
theorem foldl_op_bound (op : ℚ → ℚ → ℚ) (R : ℚ → ℚ → Prop)
    (hR : ∀ a b, R a (op a b) ∧ R b (op a b))
    (htrans : ∀ a b c, R a b → R b c → R a c)
    (hrefl : ∀ a, R a a) :
    ∀ (l : List ℚ) (a : ℚ), R a (l.foldl op a) ∧ ∀ v ∈ l, R v (l.foldl op a) := by
  intro l
  induction l with
  | nil => intro a; exact ⟨hrefl a, by simp⟩
  | cons b l ih =>
      intro a
      rw [List.foldl_cons]
      obtain ⟨h1, h2⟩ := ih (op a b)
      refine ⟨htrans a (op a b) _ (hR a b).1 h1, ?_⟩
      intro v hv
      rcases List.mem_cons.mp hv with rfl | hv
      · exact htrans v (op a v) _ (hR a v).2 h1
      · exact h2 v hv

/-- The elementwise fold across equally-shaped frames keeps the shape. -/
theorem foldl_frameOp2_shape (op : ℚ → ℚ → ℚ) :
    ∀ (fs : List Frame) (acc f0 : Frame), sameShape f0 acc →
      (∀ g ∈ fs, sameShape f0 g) →
      sameShape f0 (fs.foldl (frameOp2 op) acc) := by
  intro fs
  induction fs with
  | nil => intro acc f0 h _; exact h
  | cons g fs ih =>
      intro acc f0 hacc hmem
      rw [List.foldl_cons]
      apply ih
      · have hg := hmem g (by simp)
        have haccg : sameShape acc g := sameShape_trans (sameShape_symm hacc) hg
        exact sameShape_trans hacc (sameShape_frameOp2 op haccg)
      · intro j hj
        exact hmem j (by simp [hj])

/-- Every entry of the elementwise fold is an entry of the start frame or of
one of the folded frames. -/
theorem foldl_frameOp2_mem (op : ℚ → ℚ → ℚ)
    (hop : ∀ a b, op a b = a ∨ op a b = b) :
    ∀ (fs : List Frame) (acc : Frame) (v : ℚ),
      v ∈ (fs.foldl (frameOp2 op) acc).flatten →
      v ∈ acc.flatten ∨ ∃ g ∈ fs, v ∈ g.flatten := by
  intro fs
  induction fs with
  | nil => intro acc v h; exact Or.inl h
  | cons g fs ih =>
      intro acc v h
      rw [List.foldl_cons] at h
      rcases ih (frameOp2 op acc g) v h with h | h
      · rcases mem_frameOp2 op hop acc g v h with h | h
        · exact Or.inl h
        · exact Or.inr ⟨g, by simp, h⟩
      · obtain ⟨j, hj, hv⟩ := h
        exact Or.inr ⟨j, by simp [hj], hv⟩

/-- A bound on the entries of the elementwise fold bounds the entries of the
start frame and of every folded frame. -/
theorem foldl_frameOp2_bound (op : ℚ → ℚ → ℚ) (R : ℚ → ℚ → Prop)
    (hR : ∀ a b, R a (op a b) ∧ R b (op a b))
    (htrans : ∀ a b c, R a b → R b c → R a c) (z : ℚ) :
    ∀ (fs : List Frame) (acc f0 : Frame), sameShape f0 acc →
      (∀ g ∈ fs, sameShape f0 g) →
      (∀ v ∈ (fs.foldl (frameOp2 op) acc).flatten, R v z) →
      (∀ v ∈ acc.flatten, R v z) ∧ ∀ g ∈ fs, ∀ v ∈ g.flatten, R v z := by
  intro fs
  induction fs with
  | nil => intro acc f0 _ _ h; exact ⟨h, by simp⟩
  | cons g fs ih =>
      intro acc f0 hacc hmem h
      rw [List.foldl_cons] at h
      have hg := hmem g (by simp)
      have haccg : sameShape acc g := sameShape_trans (sameShape_symm hacc) hg
      have hacc2 : sameShape f0 (frameOp2 op acc g) :=
        sameShape_trans hacc (sameShape_frameOp2 op haccg)
      obtain ⟨h1, h2⟩ := ih (frameOp2 op acc g) f0 hacc2
        (fun j hj => hmem j (by simp [hj])) h
      obtain ⟨ha, hb⟩ := bound_frameOp2 op R hR htrans z acc g haccg h1
      refine ⟨ha, ?_⟩
      intro j hj
      rcases List.mem_cons.mp hj with rfl | hj
      · exact hb
      · exact h2 j hj

/-- `np.amax(np.amax(cube, axis=0))` on a non-empty, rectangular,
non-degenerate cube succeeds and returns the global maximum: a value that
occurs in the cube and bounds every entry from above. -/
theorem recompute_max_spec (f0 : Frame) (rest : List Frame)
    (hshape : ∀ g ∈ rest, sameShape f0 g) (hne : f0.flatten ≠ []) :
    ∃ vmx, np_amax_frame (rest.foldl (frameOp2 max) f0) = some vmx ∧
      vmx ∈ cube_elems (f0 :: rest) ∧ ∀ v ∈ cube_elems (f0 :: rest), v ≤ vmx := by
  have hshapeF : sameShape f0 (rest.foldl (frameOp2 max) f0) :=
    foldl_frameOp2_shape max rest f0 f0 (sameShape_refl f0) hshape
  have hneF : (rest.foldl (frameOp2 max) f0).flatten ≠ [] := by
    intro h
    apply hne
    have hle := sameShape_flatten_length hshapeF
    rw [h] at hle
    simpa using List.length_eq_zero.mp hle
  cases hFl : (rest.foldl (frameOp2 max) f0).flatten with
  | nil => exact absurd hFl hneF
  | cons a as =>
      refine ⟨as.foldl max a, by simp [np_amax_frame, hFl], ?_, ?_⟩
      · have hmem : as.foldl max a = a ∨ as.foldl max a ∈ as :=
          foldl_op_mem max max_choice as a
        have hmemF : as.foldl max a ∈ (rest.foldl (frameOp2 max) f0).flatten := by
          rw [hFl]
          rcases hmem with h | h
          · rw [h]; exact List.mem_cons_self a as
          · exact List.mem_cons_of_mem a h
        rcases foldl_frameOp2_mem max max_choice rest f0 _ hmemF with h | h
        · exact (mem_cube_elems _ _).mpr ⟨f0, List.mem_cons_self f0 rest, h⟩
        · obtain ⟨g, hg, hv⟩ := h
          exact (mem_cube_elems _ _).mpr ⟨g, List.mem_cons_of_mem f0 hg, hv⟩
      · intro v hv
        have hub : ∀ w ∈ (rest.foldl (frameOp2 max) f0).flatten,
            w ≤ as.foldl max a := by
          rw [hFl]
          obtain ⟨h1, h2⟩ := foldl_op_bound max (fun a b => a ≤ b)
            (fun a b => ⟨le_max_left a b, le_max_right a b⟩)
            (fun a b c hab hbc => le_trans hab hbc) (fun a => le_refl a) as a
          intro w hw
          rcases List.mem_cons.mp hw with rfl | hw
          · exact h1
          · exact h2 w hw
        obtain ⟨hub0, hubs⟩ := foldl_frameOp2_bound max (fun a b => a ≤ b)
          (fun a b => ⟨le_max_left a b, le_max_right a b⟩)
          (fun a b c hab hbc => le_trans hab hbc) (as.foldl max a)
          rest f0 f0 (sameShape_refl f0) hshape hub
        rcases (mem_cube_elems _ _).mp hv with ⟨g, hg, hvg⟩
        rcases List.mem_cons.mp hg with rfl | hg
        · exact hub0 v hvg
        · exact hubs g hg v hvg

/-- `np.amin(np.amin(cube, axis=0))` symmetrically returns the global
minimum. -/
theorem recompute_min_spec (f0 : Frame) (rest : List Frame)
    (hshape : ∀ g ∈ rest, sameShape f0 g) (hne : f0.flatten ≠ []) :
    ∃ vmn, np_amin_frame (rest.foldl (frameOp2 min) f0) = some vmn ∧
      vmn ∈ cube_elems (f0 :: rest) ∧ ∀ v ∈ cube_elems (f0 :: rest), vmn ≤ v := by
  have hshapeF : sameShape f0 (rest.foldl (frameOp2 min) f0) :=
    foldl_frameOp2_shape min rest f0 f0 (sameShape_refl f0) hshape
  have hneF : (rest.foldl (frameOp2 min) f0).flatten ≠ [] := by
    intro h
    apply hne
    have hle := sameShape_flatten_length hshapeF
    rw [h] at hle
    simpa using List.length_eq_zero.mp hle
  cases hFl : (rest.foldl (frameOp2 min) f0).flatten with
  | nil => exact absurd hFl hneF
  | cons a as =>
      refine ⟨as.foldl min a, by simp [np_amin_frame, hFl], ?_, ?_⟩
      · have hmem : as.foldl min a = a ∨ as.foldl min a ∈ as :=
          foldl_op_mem min min_choice as a
        have hmemF : as.foldl min a ∈ (rest.foldl (frameOp2 min) f0).flatten := by
          rw [hFl]
          rcases hmem with h | h
          · rw [h]; exact List.mem_cons_self a as
          · exact List.mem_cons_of_mem a h
        rcases foldl_frameOp2_mem min min_choice rest f0 _ hmemF with h | h
        · exact (mem_cube_elems _ _).mpr ⟨f0, List.mem_cons_self f0 rest, h⟩
        · obtain ⟨g, hg, hv⟩ := h
          exact (mem_cube_elems _ _).mpr ⟨g, List.mem_cons_of_mem f0 hg, hv⟩
      · intro v hv
        have hub : ∀ w ∈ (rest.foldl (frameOp2 min) f0).flatten,
            as.foldl min a ≤ w := by
          rw [hFl]
          obtain ⟨h1, h2⟩ := foldl_op_bound min (fun a b => b ≤ a)
            (fun a b => ⟨min_le_left a b, min_le_right a b⟩)
            (fun a b c hab hbc => le_trans hbc hab) (fun a => le_refl a) as a
          intro w hw
          rcases List.mem_cons.mp hw with rfl | hw
          · exact h1
          · exact h2 w hw
        obtain ⟨hlb0, hlbs⟩ := foldl_frameOp2_bound min (fun a b => b ≤ a)
          (fun a b => ⟨min_le_left a b, min_le_right a b⟩)
          (fun a b c hab hbc => le_trans hbc hab) (as.foldl min a)
          rest f0 f0 (sameShape_refl f0) hshape hub
        rcases (mem_cube_elems _ _).mp hv with ⟨g, hg, hvg⟩
        rcases List.mem_cons.mp hg with rfl | hg
        · exact hlb0 v hvg
        · exact hlbs g hg v hvg

/-- C2: over any non-empty rectangular cube with at least one entry, when
either of the externally supplied bounds is `None`, `__init__` succeeds and
sets BOTH bounds to the global extrema of the cube — `vmax` is an entry of
the cube bounding all entries from above, `vmin` an entry bounding all from
below — silently recomputing and overriding any single bound the caller did
supply. -/
theorem clim_global_extrema (header : Header) (f0 : Frame) (rest : List Frame)
    (cube_axis : List ℚ) (xlabel ylabel cblabel title cmap : String)
    (title_pad : ℚ) (vmin0 vmax0 : Option ℚ)
    (hnone : vmin0 = none ∨ vmax0 = none)
    (hshape : ∀ g ∈ rest, sameShape f0 g) (hne : f0.flatten ≠ []) :
    ∃ ac : AnimationCreator,
      AnimationCreator.make header (f0 :: rest) cube_axis xlabel ylabel cblabel
        title cmap title_pad vmin0 vmax0 = some ac ∧
      ac.vmax ∈ cube_elems (f0 :: rest) ∧
      (∀ v ∈ cube_elems (f0 :: rest), v ≤ ac.vmax) ∧
      ac.vmin ∈ cube_elems (f0 :: rest) ∧
      (∀ v ∈ cube_elems (f0 :: rest), ac.vmin ≤ v) := by
  obtain ⟨vmx, hvmx, hvmxmem, hvmxub⟩ := recompute_max_spec f0 rest hshape hne
  obtain ⟨vmn, hvmn, hvmnmem, hvmnlb⟩ := recompute_min_spec f0 rest hshape hne
  cases vmin0 with
  | some a =>
      cases vmax0 with
      | some b => rcases hnone with h | h <;> simp at h
      | none =>
          refine ⟨⟨header, f0 :: rest, cube_axis, xlabel, ylabel, cblabel,
                  title, cmap, title_pad, vmn, vmx⟩, ?_, hvmxmem, hvmxub,
                  hvmnmem, hvmnlb⟩
          simp [AnimationCreator.make, np_amax_axis0, np_amin_axis0, hvmx, hvmn]
  | none =>
      refine ⟨⟨header, f0 :: rest, cube_axis, xlabel, ylabel, cblabel,
              title, cmap, title_pad, vmn, vmx⟩, ?_, hvmxmem, hvmxub,
              hvmnmem, hvmnlb⟩
      cases vmax0 with
      | some b =>
          simp [AnimationCreator.make, np_amax_axis0, np_amin_axis0, hvmx, hvmn]
      | none =>
          simp [AnimationCreator.make, np_amax_axis0, np_amin_axis0, hvmx, hvmn]

/-- Witness for C2 at the claim's example: a cube of two 1×2 frames holding
the values `[-5, 10]` and `[0, 3]`, with neither bound supplied. -/
theorem clim_global_extrema_witness :
    ((none : Option ℚ) = none ∨ (none : Option ℚ) = none) ∧
    ([[(-5 : ℚ), 10]] : Frame).flatten ≠ [] ∧
    ∃ ac : AnimationCreator,
      AnimationCreator.make ⟨1, 1, 1, 1⟩ ([[(-5 : ℚ), 10]] :: [[[(0 : ℚ), 3]]])
        [] "" "" "" "" "plasma" 0 none none = some ac ∧
      ac.vmax ∈ cube_elems ([[(-5 : ℚ), 10]] :: [[[(0 : ℚ), 3]]]) ∧
      (∀ v ∈ cube_elems ([[(-5 : ℚ), 10]] :: [[[(0 : ℚ), 3]]]), v ≤ ac.vmax) ∧
      ac.vmin ∈ cube_elems ([[(-5 : ℚ), 10]] :: [[[(0 : ℚ), 3]]]) ∧
      (∀ v ∈ cube_elems ([[(-5 : ℚ), 10]] :: [[[(0 : ℚ), 3]]]), ac.vmin ≤ v) :=
  ⟨Or.inl rfl, by simp,
   clim_global_extrema ⟨1, 1, 1, 1⟩ [[(-5 : ℚ), 10]] [[[(0 : ℚ), 3]]]
     [] "" "" "" "" "plasma" 0 none none (Or.inl rfl)
     (by
       intro g hg
       rw [List.mem_singleton] at hg
       subst hg
       exact List.Forall₂.cons rfl List.Forall₂.nil)
     (by simp)⟩

end CSRomer
